import Mathlib

/-!
Verification of the work-stealing queue in rust-load (src/queue.rs).

The development shallowly embeds the scheduler state and the pure control
flow of the source: deques are lists, machine-word atomics are naturals
reduced modulo the word size, panics are modelled as Except.error at exactly
the panic sites of the source, and the nondeterminism of the concurrent
parts (steal results, channel polls, received message streams) is supplied
explicitly as oracle parameters.  Work units are never inspected by the
scheduler, so they appear as an opaque type parameter.
-/

set_option maxRecDepth 8000

namespace RustLoad

/-- Spin iterations between polls of the control channel (queue.rs line 74). -/
def SPIN_COUNT : Nat := 128

/-- Spin iterations before the worker starts backoff sleeping (queue.rs line 75). -/
def SPINS_UNTIL_BACKOFF : Nat := 100

/-- Microseconds added to the backoff after each sleep (queue.rs line 76). -/
def BACKOFF_INCREMENT_IN_US : Nat := 5

/-- Modulus of the machine word backing an AtomicUint (64-bit uint). -/
def UINT_MOD : Nat := 2 ^ 64

/-- Model of AtomicUint.fetch_add(1, SeqCst): the new cell value paired with the
value observed before the operation.  Addition wraps at the word size. -/
def atomicFetchAdd1 (c : Nat) : Nat × Nat := ((c + 1) % UINT_MOD, c)

/-- Model of AtomicUint.fetch_sub(1, SeqCst): the new cell value paired with the
value observed before the operation.  Subtraction wraps at the word size. -/
def atomicFetchSub1 (c : Nat) : Nat × Nat := ((c + UINT_MOD - 1) % UINT_MOD, c)

/-- A work-stealing deque of opaque work units.  The owner end (the bottom, where
the worker pushes and pops) is the head of the list. -/
abbrev Deque (α : Type) := List α

/-- Owner push onto the bottom of the deque. -/
def dequePush {α : Type} (d : Deque α) (w : α) : Deque α := w :: d

/-- Owner pop from the bottom of the deque; none when the deque is empty. -/
def dequePop {α : Type} : Deque α → Option (α × Deque α)
  | [] => none
  | w :: d => some (w, d)

/-- Messages from the supervisor to a worker (queue.rs lines 34-42).  In the
source, Start also carries the ref_count and queue_data pointers; the counter
cell is modelled separately, as a value threaded through the trace model. -/
inductive WorkerMsg (α : Type) where
  | Start (deque : Deque α)
  | Stop
  | Exit
deriving DecidableEq

/-- Messages from the workers to the supervisor (queue.rs lines 44-48). -/
inductive SupervisorMsg (α : Type) where
  | Finished
  | ReturnDeque (index : Nat) (deque : Deque α)
deriving DecidableEq

/-- Result of a steal attempt on another worker's deque (std sync deque API). -/
inductive StealResult (α : Type) where
  | Empty
  | Abort
  | Data (w : α)
deriving DecidableEq

/-- Victim selection in the STEAL phase (queue.rs line 108): the random draw
reduced modulo other_deques.len().  In Rust the remainder operator with a zero
divisor panics, so a zero length is a panic site, modelled as an error. -/
def selectVictim (r : Nat) (len : Nat) : Except String Nat :=
  if len = 0 then Except.error "attempt to calculate the remainder with a divisor of zero"
  else Except.ok (r % len)

/-- Outcome of one iteration of the STEAL loop (queue.rs lines 107-140).  The
slept field records the sleep performed in that iteration: some us when the
worker slept for us microseconds, none when it did not sleep. -/
inductive StealStep (α : Type) where
  | exitWith (w : α) (back_off : Nat)
  | next (i : Nat) (back_off : Nat) (slept : Option Nat)
  | stopped (slept : Option Nat)
  | exited (slept : Option Nat)
  | panicked (msg : String)
deriving DecidableEq

/-- One iteration of the STEAL loop (queue.rs lines 107-140), parameterised by
the oracle inputs of that iteration: the random draw r, the outcome sr of the
steal attempt on the selected victim, and the content poll of the worker's
control channel as observed by try_recv (none when no message is pending).
The arguments i and back_off are the current spin counter and backoff value. -/
def stealLoopIter {α : Type} (len : Nat) (r : Nat) (sr : StealResult α)
    (poll : Option (WorkerMsg α)) (i : Nat) (back_off : Nat) : StealStep α :=
  match selectVictim r len with
  | Except.error m => StealStep.panicked m
  | Except.ok _ =>
    match sr with
    | StealResult.Data w => StealStep.exitWith w 0
    | _ =>
      let slept : Option Nat :=
        if SPINS_UNTIL_BACKOFF < i then some back_off else none
      let back_off' : Nat :=
        if SPINS_UNTIL_BACKOFF < i then back_off + BACKOFF_INCREMENT_IN_US else back_off
      if i = SPIN_COUNT then
        match poll with
        | some WorkerMsg.Stop => StealStep.stopped slept
        | some WorkerMsg.Exit => StealStep.exited slept
        | some (WorkerMsg.Start _) => StealStep.panicked "unexpected message"
        | none => StealStep.next 0 back_off' slept
      else
        StealStep.next (i + 1) back_off' slept

/-- Oracle inputs for one STEAL-loop iteration. -/
structure StealOracle (α : Type) where
  r : Nat
  sr : StealResult α
  poll : Option (WorkerMsg α)
deriving DecidableEq

/-- Result of running the STEAL phase against a finite list of oracles.
The spinning case means the oracle list was exhausted with the loop still
running (the phase has not yet reached a terminal outcome). -/
inductive StealPhase (α : Type) where
  | stolen (w : α) (back_off : Nat)
  | stopped
  | exited
  | panicked (msg : String)
  | spinning (i : Nat) (back_off : Nat)
deriving DecidableEq

/-- The STEAL phase (queue.rs lines 104-140): iterate stealLoopIter from spin
counter i and backoff back_off, consuming one oracle per iteration. -/
def stealPhase {α : Type} (len : Nat) : Nat → Nat → List (StealOracle α) → StealPhase α
  | i, b, [] => StealPhase.spinning i b
  | i, b, o :: rest =>
    match stealLoopIter len o.r o.sr o.poll i b with
    | StealStep.exitWith w b' => StealPhase.stolen w b'
    | StealStep.next i' b' _ => stealPhase len i' b' rest
    | StealStep.stopped _ => StealPhase.stopped
    | StealStep.exited _ => StealPhase.exited
    | StealStep.panicked m => StealPhase.panicked m

/-- Outcome of one iteration of the worker's inner loop (queue.rs lines 95-163).
The exec case is control reaching line 148 with the work unit that was assigned
to the pre-declared local; exitInner is the break on should_continue = false
(the Stop path, leading to ReturnDeque); exitThread is the return on Exit. -/
inductive InnerStep (α : Type) where
  | exec (w : α) (deque : Deque α) (back_off : Nat)
  | exitInner (deque : Deque α)
  | exitThread
  | panicked (msg : String)
  | spinning (i : Nat) (back_off : Nat)
deriving DecidableEq

/-- One iteration of the worker's inner loop (queue.rs lines 95-163): pop the
own deque; when it is empty, become a thief and run the STEAL phase with a
fresh spin counter i = 0 and the carried backoff value. -/
def innerIter {α : Type} (deque : Deque α) (len : Nat) (back_off : Nat)
    (oracle : List (StealOracle α)) : InnerStep α :=
  match dequePop deque with
  | some (w, d') => InnerStep.exec w d' back_off
  | none =>
    match stealPhase len 0 back_off oracle with
    | StealPhase.stolen w b' => InnerStep.exec w deque b'
    | StealPhase.stopped => InnerStep.exitInner deque
    | StealPhase.exited => InnerStep.exitThread
    | StealPhase.panicked m => InnerStep.panicked m
    | StealPhase.spinning i b => InnerStep.spinning i b

/-- Value of the pre-declared work-unit local (queue.rs lines 98-100) when one
iteration of the inner loop has run: none models the mem::uninitialized state,
some w the state after the assignment at line 102 or line 114. -/
def workUnitLocal {α : Type} (deque : Deque α) (len : Nat) (back_off : Nat)
    (oracle : List (StealOracle α)) : Option α :=
  match dequePop deque with
  | some (w, _) => some w
  | none =>
    match stealPhase len 0 back_off oracle with
    | StealPhase.stolen w _ => some w
    | _ => none

/-- Completion bookkeeping after a work-unit function returns (queue.rs lines
156-162): fetch_sub(1, SeqCst) on the outstanding-work counter; the Bool is
whether Finished is sent, namely whether the pre-decrement value was 1. -/
def workerFinish (c : Nat) : Nat × Bool :=
  let r := atomicFetchSub1 c
  (r.1, r.2 == 1)

/-- An operation on the outstanding-work counter: inc is the fetch_add of a
proxy push (queue.rs line 182), dec the fetch_sub of a completion (line 159). -/
inductive CounterOp where
  | inc
  | dec
deriving DecidableEq

/-- Number of Finished messages sent along a linearized sequence of counter
operations starting from counter value c: each dec sends one exactly when
workerFinish reports the pre-decrement value 1. -/
def finishedCount : Nat → List CounterOp → Nat
  | _, [] => 0
  | c, CounterOp.inc :: ops => finishedCount (atomicFetchAdd1 c).1 ops
  | c, CounterOp.dec :: ops =>
    (if (workerFinish c).2 then 1 else 0) + finishedCount (workerFinish c).1 ops

/-- Valid linearizations of the SeqCst counter operations of one run.  An inc
is performed by a proxy push inside a running work-unit function, and that work
unit is decremented only after its function returns, so the counter is positive
at every inc; a dec completes a unit that was counted, so the counter is also
positive at every dec.  The counter stays below the word size: each outstanding
unit is a distinct object in memory, so their number cannot reach 2 ^ 64. -/
inductive ValidTrace : Nat → List CounterOp → Nat → Prop where
  | nil (c : Nat) : ValidTrace c [] c
  | inc (c c' : Nat) (ops : List CounterOp) (cf : Nat) :
      0 < c → c + 1 < UINT_MOD →
      (atomicFetchAdd1 c).1 = c' →
      ValidTrace c' ops cf →
      ValidTrace c (CounterOp.inc :: ops) cf
  | dec (c c' : Nat) (ops : List CounterOp) (cf : Nat) :
      0 < c →
      (workerFinish c).1 = c' →
      ValidTrace c' ops cf →
      ValidTrace c (CounterOp.dec :: ops) cf

/-- State visible to a WorkerProxy (queue.rs lines 172-176): the counter cell
behind the ref_count pointer and the mutably borrowed owning worker deque. -/
structure ProxyState (α : Type) where
  counter : Nat
  deque : Deque α
deriving DecidableEq

/-- Observable effects of a proxy operation, in program order. -/
inductive ProxyEvent (α : Type) where
  | counterIncrement (pre : Nat)
  | dequePushed (w : α)
deriving DecidableEq

/-- WorkerProxy::push (queue.rs lines 181-184): fetch_add(1, SeqCst) on the
outstanding-work counter, then push onto the owning worker's deque.  The event
list records the two effects in the order the source performs them. -/
def proxyPush {α : Type} (s : ProxyState α) (w : α) : ProxyState α × List (ProxyEvent α) :=
  let r := atomicFetchAdd1 s.counter
  ({ counter := r.1, deque := dequePush s.deque w },
   [ProxyEvent.counterIncrement r.2, ProxyEvent.dequePushed w])

/-- Supervisor-side record about one worker (queue.rs lines 50-58).  The control
channel and the thief handle carry no supervisor-visible state, so only the
optional worker end of the deque is modelled. -/
structure WorkerInfo (α : Type) where
  deque : Option (Deque α)
deriving DecidableEq

/-- The work queue (queue.rs lines 193-203). -/
structure WorkQueue (Q α : Type) where
  workers : List (WorkerInfo α)
  work_count : Nat
  data : Q
deriving DecidableEq

/-- WorkQueue::new (queue.rs lines 208-254): one WorkerInfo per worker, each
with a fresh empty deque present, work_count zero, the user data stored.  The
spawned threads, channels and thief handles are outside the supervisor state.
The source body contains no assert and no other panic site, so the embedding
is a total function. -/
def WorkQueue.new {Q α : Type} (thread_count : Nat) (user_data : Q) : WorkQueue Q α :=
  { workers := List.replicate thread_count { deque := some [] },
    work_count := 0,
    data := user_data }

/-- WorkQueue::push (queue.rs lines 258-266): index worker 0 (a panic site when
the workers vector is empty), match on its optional deque (a panic site when
the deque is absent), push onto it, increment work_count. -/
def WorkQueue.push {Q α : Type} (q : WorkQueue Q α) (w : α) :
    Except String (WorkQueue Q α) :=
  match q.workers with
  | [] => Except.error "index out of bounds"
  | info :: rest =>
    match info.deque with
    | none => Except.error "tried to push a block but we do not have the deque?!"
    | some d =>
      Except.ok { q with workers := { deque := some (dequePush d w) } :: rest,
                         work_count := q.work_count + 1 }

/-- WorkQueue::shutdown (queue.rs lines 296-300): send Exit on each worker's
control channel; the queue state is not touched.  The second component is the
list of messages sent, one per worker in order. -/
def WorkQueue.shutdown {Q α : Type} (q : WorkQueue Q α) :
    WorkQueue Q α × List (WorkerMsg α) :=
  (q, q.workers.map fun _ => WorkerMsg.Exit)

/-- Start dispatch of WorkQueue::run (queue.rs lines 272-275): for each worker,
take the deque out of its WorkerInfo and unwrap it (a panic site when absent),
sending Start with it.  Returns the sent messages and the updated worker list,
in which every deque is absent. -/
def startWorkers {α : Type} : List (WorkerInfo α) →
    Except String (List (WorkerMsg α) × List (WorkerInfo α))
  | [] => Except.ok ([], [])
  | info :: rest =>
    match info.deque with
    | none => Except.error "called unwrap on a missing deque"
    | some d =>
      match startWorkers rest with
      | Except.error m => Except.error m
      | Except.ok (msgs, ws) =>
        Except.ok (WorkerMsg.Start d :: msgs, { deque := none } :: ws)

/-- Deque-return loop of WorkQueue::run (queue.rs lines 287-292): receive
exactly n messages; a Finished here is a panic site; each ReturnDeque i d is
stored back into position i.  An exhausted message stream models the supervisor
blocked forever on recv. -/
def recvDeques {α : Type} : Nat → List (WorkerInfo α) → List (SupervisorMsg α) →
    Except String (List (WorkerInfo α))
  | 0, ws, _ => Except.ok ws
  | _ + 1, _, [] => Except.error "blocked forever waiting for a supervisor message"
  | _ + 1, _, SupervisorMsg.Finished :: _ =>
    Except.error "unexpected finished message!"
  | n + 1, ws, SupervisorMsg.ReturnDeque i d :: rest =>
    recvDeques n (ws.set i { deque := some d }) rest

/-- WorkQueue::run (queue.rs lines 269-293), parameterised by the messages the
supervisor receives: first is the message consumed by the blocking recv at line
278 (dropped without inspection), msgs those consumed by the deque-return loop.
Between the two receives work_count is reset to 0 and Stop is sent to every
worker; the Stop sends carry no supervisor-visible state change. -/
def WorkQueue.run {Q α : Type} (q : WorkQueue Q α) (first : SupervisorMsg α)
    (msgs : List (SupervisorMsg α)) : Except String (WorkQueue Q α) :=
  let _ := first
  match startWorkers q.workers with
  | Except.error m => Except.error m
  | Except.ok (_, ws) =>
    match recvDeques ws.length ws msgs with
    | Except.error m => Except.error m
    | Except.ok ws' => Except.ok { workers := ws', work_count := 0, data := q.data }

theorem uintMod_pos : 0 < UINT_MOD := by decide

theorem fetchAdd1_eq (c : Nat) (h : c + 1 < UINT_MOD) : (atomicFetchAdd1 c).1 = c + 1 := by
  simp [atomicFetchAdd1, Nat.mod_eq_of_lt h]

theorem workerFinish_fst (c : Nat) (h0 : 0 < c) (h1 : c < UINT_MOD) :
    (workerFinish c).1 = c - 1 := by
  simp only [workerFinish, atomicFetchSub1]
  have hM := uintMod_pos
  have h2 : c + UINT_MOD - 1 = (c - 1) + UINT_MOD := by omega
  rw [h2, Nat.add_mod_right, Nat.mod_eq_of_lt (by omega)]

theorem workerFinish_snd (c : Nat) : ((workerFinish c).2 = true) ↔ c = 1 := by
  simp [workerFinish, atomicFetchSub1]

theorem validTrace_zero {ops : List CounterOp} {cf : Nat} (h : ValidTrace 0 ops cf) :
    ops = [] ∧ cf = 0 := by
  cases h with
  | nil => exact ⟨rfl, rfl⟩
  | inc _ c' ops cf h0 h1 heq ht => exact absurd h0 (lt_irrefl 0)
  | dec _ c' ops cf h0 heq ht => exact absurd h0 (lt_irrefl 0)

theorem finishedCount_one_aux {c : Nat} {ops : List CounterOp} {cf : Nat}
    (h : ValidTrace c ops cf) :
    cf = 0 → 0 < c → c < UINT_MOD → finishedCount c ops = 1 := by
  induction h with
  | nil c =>
    intro hcf h0 _
    exact absurd h0 (by omega)
  | inc c c' ops cf h0' h1' heq ht ih =>
    intro hcf hc hlt
    have hc' : c' = c + 1 := by rw [← heq, fetchAdd1_eq c h1']
    show finishedCount (atomicFetchAdd1 c).1 ops = 1
    rw [heq]
    exact ih hcf (by omega) (by omega)
  | dec c c' ops cf h0' heq ht ih =>
    intro hcf hc hlt
    subst hcf
    show (if (workerFinish c).2 then 1 else 0) + finishedCount (workerFinish c).1 ops = 1
    by_cases h1 : c = 1
    · subst h1
      have hc' : c' = 0 := by
        rw [← heq, workerFinish_fst 1 (by omega) (by omega)]
      have hops := validTrace_zero (hc' ▸ ht)
      rw [heq, hc', hops.1]
      rw [if_pos ((workerFinish_snd 1).mpr rfl)]
      rfl
    · have hfst : (workerFinish c).1 = c - 1 := workerFinish_fst c hc hlt
      have hsnd : (workerFinish c).2 = false := by
        cases hb : (workerFinish c).2
        · rfl
        · exact absurd ((workerFinish_snd c).mp hb) h1
      rw [hsnd, if_neg (by simp), heq]
      have hc' : c' = c - 1 := by rw [← heq, hfst]
      rw [Nat.zero_add]
      exact ih rfl (by omega) (by omega)

/-- C4: after a work-unit function returns, the worker decrements the counter
by exactly 1 (SeqCst) and sends Finished exactly when the pre-decrement value
was 1; along every valid linearization of the counter operations of a
terminating run (seed count positive, counter reaching 0), exactly one
Finished message is sent. -/
theorem completion_decrement_sends_one_finished (n : Nat) (ops : List CounterOp)
    (hn : 0 < n) (hlt : n < UINT_MOD) (ht : ValidTrace n ops 0) :
    finishedCount n ops = 1 ∧
    ∀ c : Nat, 0 < c → c < UINT_MOD →
      (workerFinish c).1 = c - 1 ∧ ((workerFinish c).2 = true ↔ c = 1) :=
  ⟨finishedCount_one_aux ht rfl hn hlt,
   fun c h0 h1 => ⟨workerFinish_fst c h0 h1, workerFinish_snd c⟩⟩

/-- C4 witness: the one-seed one-completion run sends exactly one Finished. -/
theorem completion_decrement_sends_one_finished_witness :
    finishedCount 1 [CounterOp.dec] = 1 :=
  (completion_decrement_sends_one_finished 1 [CounterOp.dec] (by decide) (by decide)
    (ValidTrace.dec 1 0 [] 0 (by decide) (by decide) (ValidTrace.nil 0))).1

/-- C5: WorkerProxy::push increments the outstanding-work counter by exactly 1
with sequentially consistent ordering and then pushes the unit onto the owning
worker's deque; the event list records that the counter increment is performed
before the deque push. -/
theorem proxy_push_counts_before_pushing {α : Type} (s : ProxyState α) (w : α)
    (h : s.counter + 1 < UINT_MOD) :
    (proxyPush s w).1.counter = s.counter + 1 ∧
    (proxyPush s w).1.deque = dequePush s.deque w ∧
    (proxyPush s w).2 =
      [ProxyEvent.counterIncrement s.counter, ProxyEvent.dequePushed w] := by
  refine ⟨?_, rfl, rfl⟩
  show (atomicFetchAdd1 s.counter).1 = s.counter + 1
  exact fetchAdd1_eq s.counter h

/-- C5 witness: proxy push on a concrete state. -/
theorem proxy_push_counts_before_pushing_witness :
    (proxyPush { counter := 0, deque := ([] : Deque Unit) } ()).1.counter = 0 + 1 ∧
    (proxyPush { counter := 0, deque := ([] : Deque Unit) } ()).1.deque =
      dequePush [] () ∧
    (proxyPush { counter := 0, deque := ([] : Deque Unit) } ()).2 =
      [ProxyEvent.counterIncrement 0, ProxyEvent.dequePushed ()] :=
  proxy_push_counts_before_pushing { counter := 0, deque := [] } () (by decide)

/-- C7: run on an empty queue (work_count = 0) never returns.  The counter is
initialized to 0, so the only valid linearization of counter operations is the
empty one and no Finished is ever sent; the blocking recv at queue.rs line 278
therefore never receives a message and run blocks forever, rather than
returning immediately or being disallowed. -/
theorem empty_run_sends_no_finished (ops : List CounterOp) (cf : Nat)
    (h : ValidTrace 0 ops cf) : finishedCount 0 ops = 0 ∧ ops = [] := by
  have h' := validTrace_zero h
  refine ⟨?_, h'.1⟩
  rw [h'.1]
  rfl

/-- C7 witness: the empty linearization from counter 0. -/
theorem empty_run_sends_no_finished_witness :
    finishedCount 0 [] = 0 ∧ ([] : List CounterOp) = [] :=
  empty_run_sends_no_finished [] 0 (ValidTrace.nil 0)

/-- C6: characterization of one iteration of the STEAL loop when there is at
least one victim deque.  A successful steal resets the backoff to 0 and exits
the phase with the stolen unit, before any sleep.  Otherwise the worker sleeps
back_off microseconds and then adds BACKOFF_INCREMENT_IN_US to the backoff
exactly when i is strictly greater than SPINS_UNTIL_BACKOFF; it polls the
control channel exactly when i = SPIN_COUNT, resetting i to 0 after the poll,
and otherwise increments i by 1 without consulting the channel. -/
theorem steal_loop_iteration_spec {α : Type} (len r i b : Nat) (sr : StealResult α)
    (poll : Option (WorkerMsg α)) (hlen : 0 < len) :
    (∀ w, sr = StealResult.Data w →
      stealLoopIter len r sr poll i b = StealStep.exitWith w 0) ∧
    ((sr = StealResult.Empty ∨ sr = StealResult.Abort) →
      (i ≠ SPIN_COUNT →
        stealLoopIter len r sr poll i b =
          StealStep.next (i + 1)
            (if SPINS_UNTIL_BACKOFF < i then b + BACKOFF_INCREMENT_IN_US else b)
            (if SPINS_UNTIL_BACKOFF < i then some b else none)) ∧
      (i = SPIN_COUNT →
        stealLoopIter len r sr poll i b =
          match poll with
          | some WorkerMsg.Stop => StealStep.stopped (some b)
          | some WorkerMsg.Exit => StealStep.exited (some b)
          | some (WorkerMsg.Start _) => StealStep.panicked "unexpected message"
          | none => StealStep.next 0 (b + BACKOFF_INCREMENT_IN_US) (some b))) := by
  have hlen' : ¬ len = 0 := by omega
  have hsel : selectVictim r len = Except.ok (r % len) := by
    simp [selectVictim, hlen']
  refine ⟨?_, ?_⟩
  · intro w hw
    subst hw
    simp [stealLoopIter, hsel]
  · intro hEA
    have hbody : stealLoopIter len r sr poll i b =
        (if i = SPIN_COUNT then
          match poll with
          | some WorkerMsg.Stop =>
            StealStep.stopped (if SPINS_UNTIL_BACKOFF < i then some b else none)
          | some WorkerMsg.Exit =>
            StealStep.exited (if SPINS_UNTIL_BACKOFF < i then some b else none)
          | some (WorkerMsg.Start _) => StealStep.panicked "unexpected message"
          | none =>
            StealStep.next 0
              (if SPINS_UNTIL_BACKOFF < i then b + BACKOFF_INCREMENT_IN_US else b)
              (if SPINS_UNTIL_BACKOFF < i then some b else none)
        else
          StealStep.next (i + 1)
            (if SPINS_UNTIL_BACKOFF < i then b + BACKOFF_INCREMENT_IN_US else b)
            (if SPINS_UNTIL_BACKOFF < i then some b else none)) := by
      rcases hEA with h | h <;> subst h <;> simp [stealLoopIter, hsel]
    refine ⟨?_, ?_⟩
    · intro hne
      rw [hbody, if_neg hne]
    · intro heq
      subst heq
      have hgt : SPINS_UNTIL_BACKOFF < SPIN_COUNT := by decide
      rw [hbody, if_pos rfl]
      cases poll with
      | none => simp [hgt]
      | some m => cases m <;> simp [hgt]

/-- C6 witness: iteration with i = 0 on an empty steal attempt spins without
sleeping and without polling. -/
theorem steal_loop_iteration_spec_witness :
    stealLoopIter 1 0 (StealResult.Empty : StealResult Unit) none 0 0 =
      StealStep.next 1 0 none := by
  have h := ((steal_loop_iteration_spec 1 0 0 0 (StealResult.Empty : StealResult Unit)
      none (by decide)).2 (Or.inl rfl)).1 (by decide)
  simpa using h

/-- C10: in the worker's inner loop, the pre-declared work-unit local is read
only after it has been assigned: whenever control reaches the execution point
(line 148) with a unit w, the local had been assigned some w from a successful
pop of the own deque or from a successful steal (Data); and on the Stop path
the inner loop is exited before the local is ever read. -/
theorem work_unit_read_only_after_assignment {α : Type} (deque : Deque α)
    (len back_off : Nat) (oracle : List (StealOracle α)) :
    (∀ w d b', innerIter deque len back_off oracle = InnerStep.exec w d b' →
      workUnitLocal deque len back_off oracle = some w ∧
      (dequePop deque = some (w, d) ∨
        (dequePop deque = none ∧
          stealPhase len 0 back_off oracle = StealPhase.stolen w b'))) ∧
    (dequePop deque = none → stealPhase len 0 back_off oracle = StealPhase.stopped →
      innerIter deque len back_off oracle = InnerStep.exitInner deque) := by
  constructor
  · intro w d b' h
    unfold innerIter at h
    unfold workUnitLocal
    cases hpop : dequePop deque with
    | some p =>
      obtain ⟨w0, d0⟩ := p
      rw [hpop] at h
      simp only [InnerStep.exec.injEq] at h
      obtain ⟨hw, hd, hb⟩ := h
      subst hw
      subst hd
      simp [hpop]
    | none =>
      rw [hpop] at h
      cases hsp : stealPhase len 0 back_off oracle with
      | stolen w1 b1 =>
        rw [hsp] at h
        simp only [InnerStep.exec.injEq] at h
        obtain ⟨hw, hd, hb⟩ := h
        subst hw
        subst hb
        simp [hpop, hsp, hd]
      | stopped => rw [hsp] at h; exact absurd h (by simp)
      | exited => rw [hsp] at h; exact absurd h (by simp)
      | panicked m => rw [hsp] at h; exact absurd h (by simp)
      | spinning i b => rw [hsp] at h; exact absurd h (by simp)
  · intro hpop hsp
    unfold innerIter
    rw [hpop, hsp]

/-- C10 witness: popping the single unit of a concrete deque reaches the
execution point with exactly that unit. -/
theorem work_unit_read_only_after_assignment_witness :
    workUnitLocal [()] 1 0 ([] : List (StealOracle Unit)) = some () ∧
    (dequePop [()] = some ((), []) ∨
      (dequePop [()] = none ∧
        stealPhase 1 0 0 ([] : List (StealOracle Unit)) = StealPhase.stolen () 0)) :=
  (work_unit_read_only_after_assignment [()] 1 0 []).1 () [] 0 rfl

theorem startWorkers_ok {α : Type} (ws : List (WorkerInfo α))
    (h : ∀ info ∈ ws, info.deque.isSome = true) :
    ∃ msgs, startWorkers ws =
      Except.ok (msgs, ws.map fun _ => ({ deque := none } : WorkerInfo α)) := by
  induction ws with
  | nil => exact ⟨[], rfl⟩
  | cons info rest ih =>
    have hinfo := h info (List.mem_cons_self _ _)
    obtain ⟨d, hd⟩ := Option.isSome_iff_exists.mp hinfo
    obtain ⟨msgs, hmsgs⟩ := ih fun i hi => h i (List.mem_cons_of_mem _ hi)
    refine ⟨WorkerMsg.Start d :: msgs, ?_⟩
    simp [startWorkers, hd, hmsgs]

theorem recvDeques_present {α : Type} (msgs : List (SupervisorMsg α)) :
    ∀ ws : List (WorkerInfo α),
    (∀ m ∈ msgs, ∃ i d, m = SupervisorMsg.ReturnDeque i d) →
    ∃ ws', recvDeques msgs.length ws msgs = Except.ok ws' ∧
      ws'.length = ws.length ∧
      ∀ j : Nat, j < ws.length →
        ((∃ d, SupervisorMsg.ReturnDeque j d ∈ msgs) ∨
          (∃ info, ws[j]? = some info ∧ info.deque.isSome = true)) →
        ∃ info, ws'[j]? = some info ∧ info.deque.isSome = true := by
  induction msgs with
  | nil =>
    intro ws hform
    refine ⟨ws, rfl, rfl, ?_⟩
    intro j hj hcov
    rcases hcov with ⟨d, hd⟩ | h
    · exact absurd hd (List.not_mem_nil _)
    · exact h
  | cons m rest ih =>
    intro ws hform
    obtain ⟨i, d, rfl⟩ := hform m (List.mem_cons_self _ _)
    obtain ⟨ws', hok, hlen, hpres⟩ :=
      ih (ws.set i { deque := some d }) fun m hm => hform m (List.mem_cons_of_mem _ hm)
    refine ⟨ws', hok, by rw [hlen]; simp, ?_⟩
    intro j hj hcov
    apply hpres j (by simpa using hj)
    rcases hcov with ⟨d', hd'⟩ | ⟨info, hinfo, hsome⟩
    · rcases List.mem_cons.mp hd' with heq | hmem
      · simp only [SupervisorMsg.ReturnDeque.injEq] at heq
        obtain ⟨hji, hdd⟩ := heq
        subst hji
        exact Or.inr ⟨{ deque := some d }, List.getElem?_set_eq_of_lt _ hj, rfl⟩
      · exact Or.inl ⟨d', hmem⟩
    · right
      by_cases hji : i = j
      · subst hji
        exact ⟨{ deque := some d }, List.getElem?_set_eq_of_lt _ hj, rfl⟩
      · exact ⟨info, by rw [List.getElem?_set_ne hji]; exact hinfo, hsome⟩

/-- C8: when the workers are idle (all deques present) and the deque-return
loop receives one ReturnDeque message per worker covering every index, run
returns a queue in which every worker's deque is present again and work_count
is 0, ready for the next push and run. -/
theorem run_restores_deques_and_resets_count {Q α : Type} (q : WorkQueue Q α)
    (first : SupervisorMsg α) (msgs : List (SupervisorMsg α))
    (hidle : ∀ info ∈ q.workers, info.deque.isSome = true)
    (hlen : msgs.length = q.workers.length)
    (hform : ∀ m ∈ msgs, ∃ i d, m = SupervisorMsg.ReturnDeque i d)
    (hcover : ∀ j : Nat, j < q.workers.length →
      ∃ d, SupervisorMsg.ReturnDeque j d ∈ msgs) :
    ∃ ws', q.run first msgs =
        Except.ok { workers := ws', work_count := 0, data := q.data } ∧
      ws'.length = q.workers.length ∧
      ∀ info ∈ ws', info.deque.isSome = true := by
  obtain ⟨m0, hsw⟩ := startWorkers_ok q.workers hidle
  have hlen0 : (q.workers.map fun _ => ({ deque := none } : WorkerInfo α)).length
      = q.workers.length := by simp
  obtain ⟨ws', hok, hlen', hpres⟩ :=
    recvDeques_present msgs (q.workers.map fun _ => ({ deque := none } : WorkerInfo α)) hform
  refine ⟨ws', ?_, by rw [hlen', hlen0], ?_⟩
  · unfold WorkQueue.run
    rw [hsw]
    dsimp only
    rw [hlen0, ← hlen, hok]
  · intro info hmem
    obtain ⟨j, hj⟩ := List.mem_iff_getElem?.mp hmem
    have hjlt : j < (q.workers.map fun _ => ({ deque := none } : WorkerInfo α)).length := by
      rw [← hlen']
      exact List.getElem?_eq_some.mp hj |>.1
    obtain ⟨info', hinfo', hsome'⟩ :=
      hpres j hjlt (Or.inl (hcover j (by rwa [hlen0] at hjlt)))
    rw [hj] at hinfo'
    cases hinfo'
    exact hsome'

/-- C8 witness: a single-worker queue, the Finished message, then one
ReturnDeque message. -/
theorem run_restores_deques_and_resets_count_witness :
    ∃ ws', (WorkQueue.new (Q := Unit) (α := Unit) 1 ()).run SupervisorMsg.Finished
        [SupervisorMsg.ReturnDeque 0 []] =
      Except.ok { workers := ws', work_count := 0,
                  data := (WorkQueue.new (Q := Unit) (α := Unit) 1 ()).data } ∧
      ws'.length = (WorkQueue.new (Q := Unit) (α := Unit) 1 ()).workers.length ∧
      ∀ info ∈ ws', info.deque.isSome = true :=
  run_restores_deques_and_resets_count (WorkQueue.new 1 ()) SupervisorMsg.Finished
    [SupervisorMsg.ReturnDeque 0 []]
    (by decide)
    (by decide)
    (by intro m hm; rw [List.mem_singleton] at hm; subst hm; exact ⟨0, [], rfl⟩)
    (by
      intro j hj
      have hj0 : j = 0 := by
        have : (WorkQueue.new (Q := Unit) (α := Unit) 1 ()).workers.length = 1 := rfl
        omega
      subst hj0
      exact ⟨[], List.mem_singleton.mpr rfl⟩)

/-- C1 counterexample: WorkQueue::new called with thread_count = 0 does not
panic.  The body of new contains no assert and no other panic site; at 0 both
construction loops run zero times and a queue with an empty workers vector is
returned. -/
theorem new_zero_thread_count_returns :
    (WorkQueue.new (Q := Unit) (α := Unit) 0 ()) =
      { workers := [], work_count := 0, data := () } := rfl

/-- C1 amended: WorkQueue::new never panics; for every thread_count, zero
included, it returns a queue with exactly thread_count workers, each with its
deque present and empty, and with work_count 0. -/
theorem new_returns_thread_count_workers {Q α : Type} (thread_count : Nat) (u : Q) :
    (WorkQueue.new thread_count u : WorkQueue Q α).workers.length = thread_count ∧
    (∀ info ∈ (WorkQueue.new thread_count u : WorkQueue Q α).workers,
      info.deque = some []) ∧
    (WorkQueue.new thread_count u : WorkQueue Q α).work_count = 0 := by
  refine ⟨by simp [WorkQueue.new], ?_, rfl⟩
  intro info h
  have h' := List.eq_of_mem_replicate (show info ∈ _ from h)
  rw [h']

/-- C1 amended witness: a two-worker queue has exactly two workers. -/
theorem new_returns_thread_count_workers_witness :
    (WorkQueue.new (Q := Unit) (α := Unit) 2 ()).workers.length = 2 :=
  (new_returns_thread_count_workers 2 ()).1

/-- C2 counterexample: push after shutdown does not panic.  On a fresh
single-worker queue, shutdown followed by push succeeds, pushing onto worker
0's still-present deque and incrementing work_count. -/
theorem push_after_shutdown_succeeds :
    ((WorkQueue.new (Q := Unit) (α := Unit) 1 ()).shutdown.1.push ()) =
      Except.ok { workers := [{ deque := some [()] }], work_count := 1, data := () } := rfl

/-- C2 amended: shutdown leaves the queue state unchanged, so push after
shutdown behaves exactly like push before it; push panics precisely when the
workers vector is empty or worker 0's deque is absent (it is absent only while
run is in progress), so push after shutdown on an idle queue succeeds rather
than panicking. -/
theorem push_after_shutdown_eq_push {Q α : Type} (q : WorkQueue Q α) (w : α) :
    (q.shutdown.1.push w = q.push w) ∧
    ((q.push w).isOk = true ↔
      ∃ info rest, q.workers = info :: rest ∧ info.deque.isSome = true) := by
  refine ⟨rfl, ?_⟩
  cases hws : q.workers with
  | nil => simp [WorkQueue.push, hws, Except.isOk, Except.toBool]
  | cons info rest =>
    cases hd : info.deque with
    | none => simp [WorkQueue.push, hws, hd, Except.isOk, Except.toBool]
    | some d => simp [WorkQueue.push, hws, hd, Except.isOk, Except.toBool]

/-- C2 amended witness: push on a concrete queue after shutdown equals push on
the queue itself. -/
theorem push_after_shutdown_eq_push_witness :
    (WorkQueue.new (Q := Unit) (α := Unit) 1 ()).shutdown.1.push () =
      (WorkQueue.new (Q := Unit) (α := Unit) 1 ()).push () :=
  (push_after_shutdown_eq_push (WorkQueue.new 1 ()) ()).1

/-- C3: when other_deques is empty (thread_count = 1), every iteration of the
STEAL loop panics on the unguarded modulo by zero in victim selection, before
the steal attempt and before the control channel is polled; even a pending Stop
message cannot make the single worker exit cleanly. -/
theorem steal_with_no_victims_panics {α : Type} (r i back_off : Nat)
    (sr : StealResult α) (poll : Option (WorkerMsg α)) :
    stealLoopIter 0 r sr poll i back_off =
      StealStep.panicked "attempt to calculate the remainder with a divisor of zero" := rfl

/-- C9: shutdown sends exactly one Exit message per worker, in worker order,
and leaves every field of the queue unchanged: the workers vector with every
deque still present, work_count, and the user data are exactly as before. -/
theorem shutdown_sends_exit_and_preserves_state {Q α : Type} (q : WorkQueue Q α) :
    q.shutdown.1 = q ∧
    q.shutdown.2 = q.workers.map (fun _ => WorkerMsg.Exit) ∧
    q.shutdown.2.length = q.workers.length :=
  ⟨rfl, rfl, by simp [WorkQueue.shutdown]⟩

end RustLoad
